import Mathlib

/-!
Verification of the simplewaldb storage engine: a shallow embedding of the
record codec (errors.go), the per-table storage operations (table.go), the
transaction layer (transaction files) and the database lifecycle, together
with theorems settling the specification's claims about them.

Machine integers are modelled as Nat (uint32/uint64 byte views) and Int
(int64 fields), with two's-complement conversion made explicit. File
contents are lists of bytes; fallible operations return Option/Except, and
I/O failure is injected through an explicit fault parameter naming the step
of the operation that fails.
-/

namespace SimpleWalDB

/-- KeySize from interface.go: keys are 16-byte arrays. -/
def KeySize : Nat := 16

/-- A key (Go type Key = [16]byte) modelled as a list of bytes. -/
abbrev Key := List Nat

/-- A table key (Go type TableKey string) modelled as its byte sequence; Go
compares strings byte-wise. -/
abbrev TableKey := List Nat

/-- Go's string less-than on byte sequences: byte-wise lexicographic. -/
def goStrLess : TableKey → TableKey → Bool
  | [], [] => false
  | [], _ :: _ => true
  | _ :: _, [] => false
  | a :: s, b :: t => if a < b then true else if b < a then false else goStrLess s t

/-- The space character used between index record fields. -/
def spaceChar : Nat := 32

/-- The line-feed character terminating an index record. -/
def lfChar : Nat := 10

/-- Lowercase hex digit for a nibble, as Go encoding/hex writes. -/
def hexDigit (n : Nat) : Nat := if n < 10 then 48 + n else 87 + n

/-- hex encoding of one byte: two lowercase hex characters. -/
def hexNat (b : Nat) : List Nat := [hexDigit (b / 16), hexDigit (b % 16)]

/-- hex.Encode of a byte slice: two lowercase hex chars per input byte. -/
def hexEncode (bs : List Nat) : List Nat := (bs.map hexNat).flatten

/-- fromHexChar of Go encoding/hex: accepts 0-9, a-f and A-F. -/
def fromHexChar (c : Nat) : Option Nat :=
  if 48 ≤ c ∧ c ≤ 57 then some (c - 48)
  else if 97 ≤ c ∧ c ≤ 102 then some (c - 87)
  else if 65 ≤ c ∧ c ≤ 70 then some (c - 55)
  else none

/-- hex.Decode: consumes pairs of hex characters producing one byte each;
fails on odd input length or on a character that is not a hex digit. -/
def hexDecode : List Nat → Option (List Nat)
  | [] => some []
  | [_] => none
  | c1 :: c2 :: rest =>
    match fromHexChar c1, fromHexChar c2, hexDecode rest with
    | some hi, some lo, some bs => some ((hi * 16 + lo) :: bs)
    | _, _, _ => none

/-- Big-endian byte view of a uint64 value (binary.BigEndian.PutUint64). -/
def u64BE (n : Nat) : List Nat :=
  [n / 2^56 % 256, n / 2^48 % 256, n / 2^40 % 256, n / 2^32 % 256,
   n / 2^24 % 256, n / 2^16 % 256, n / 2^8 % 256, n % 256]

/-- Big-endian byte view of a uint32 value (binary.BigEndian.PutUint32). -/
def u32BE (n : Nat) : List Nat :=
  [n / 2^24 % 256, n / 2^16 % 256, n / 2^8 % 256, n % 256]

/-- binary.BigEndian.Uint64/Uint32: fold a big-endian byte view to a Nat. -/
def beToNat (bs : List Nat) : Nat := bs.foldl (fun a b => a * 256 + b) 0

/-- Go conversion uint64(x) of an int64 x: the two's-complement bit pattern. -/
def i64ToU64 (x : Int) : Nat := (x % (2:Int)^64).toNat

/-- Go conversion int64(u) of a uint64 u: two's-complement reinterpretation. -/
def u64ToI64 (n : Nat) : Int := if n < 2^63 then (n : Int) else (n : Int) - 2^64

/-- math.MaxInt64, the sentinel value used as the previous index offset of a
key's first-ever write (table.go, put). -/
def maxInt64 : Int := 2^63 - 1

/-- indexRecordSize from errors.go: 8 hex chars (data file) + space + 16 hex
(offset) + space + 16 hex (size) + space + 32 hex (key) + space + 16 hex
(previous index offset) + line feed. -/
def indexRecordSize : Nat := 4*2 + 1 + 8*2 + 1 + 8*2 + 1 + KeySize*2 + 1 + 8*2 + 1

/-- indexRecord from errors.go. The first five fields are stored on disk;
indexOffset is in-memory only (tracked by the open-time scan and by put). -/
structure indexRecord where
  dataFile : Nat
  offset : Int
  size : Int
  key : Key
  prevIndexOffset : Int
  indexOffset : Int
  deriving DecidableEq

/-- The zero value of indexRecord, as produced by Go's new(indexRecord). -/
def zeroRecord : indexRecord :=
  ⟨0, 0, 0, List.replicate KeySize 0, 0, 0⟩

/-- indexRecordWriter.writeEntry from errors.go: the fixed-width text encoding
of one index record, written field by field into a record-sized buffer. -/
def writeEntry (ir : indexRecord) : List Nat :=
  hexEncode (u32BE ir.dataFile) ++ [spaceChar] ++
  hexEncode (u64BE (i64ToU64 ir.offset)) ++ [spaceChar] ++
  hexEncode (u64BE (i64ToU64 ir.size)) ++ [spaceChar] ++
  hexEncode ir.key ++ [spaceChar] ++
  hexEncode (u64BE (i64ToU64 ir.prevIndexOffset)) ++ [lfChar]

/-- indexRecord.decode from errors.go. Decodes the five stored fields into the
receiver record ir (Go mutates the method receiver), leaving the in-memory
indexOffset field untouched; fails when the buffer is not exactly
indexRecordSize bytes long or when any hex field fails to decode. Field
positions follow the source's successive reslicing: data file at 0, offset at
9, size at 26, key at 43, previous index offset at 76. -/
def decode (b : List Nat) (ir : indexRecord) : Option indexRecord :=
  if b.length = indexRecordSize then
    match hexDecode (b.take 8), hexDecode ((b.drop 9).take 16),
          hexDecode ((b.drop 26).take 16), hexDecode ((b.drop 43).take 32),
          hexDecode ((b.drop 76).take 16) with
    | some df, some off, some sz, some k, some prev =>
      some { ir with
        dataFile := beToNat df
        offset := u64ToI64 (beToNat off)
        size := u64ToI64 (beToNat sz)
        key := k
        prevIndexOffset := u64ToI64 (beToNat prev) }
    | _, _, _, _, _ => none
  else none

/-- Decoding into a fresh zero record, as the open-time index scan does
(entry := new(indexRecord); entry.decode(buf)). -/
def decodeFresh (b : List Nat) : Option indexRecord := decode b zeroRecord

/-- Association-list update modelling index[key] = entry (insert or overwrite
in place; Go mutates the shared record through the map's pointer). -/
def setAssoc : List (Key × indexRecord) → Key → indexRecord → List (Key × indexRecord)
  | [], k, v => [(k, v)]
  | (k', v') :: rest, k, v =>
    if k' = k then (k', v) :: rest else (k', v') :: setAssoc rest k v

/-- Association-list lookup modelling the map[Key]*indexRecord access. -/
def lookupAssoc : List (Key × indexRecord) → Key → Option indexRecord
  | [], _ => none
  | (k', v') :: rest, k => if k' = k then some v' else lookupAssoc rest k

/-- In-memory state of one table together with the contents of its two log
files. The sep field holds the 64-byte record separator that newTable copies
into the head of the table's sepBuffer. -/
structure TableState where
  dataFile : List Nat
  indexFile : List Nat
  index : List (Key × indexRecord)
  sep : List Nat
  deriving DecidableEq

/-- Error values observable from the modelled operations. -/
inductive GoError where
  | ioErr
  | keyNotFound (k : Key)
  | tableNotInTx (t : TableKey)
  | tableNotWritableInTx (t : TableKey)
  | txDone
  | nilSliceErr
  | alreadyClosed
  | shortRead
  deriving DecidableEq

/-- readEntry from table.go: the buffer is truncated to the entry size, then
read at the entry's offset; the read succeeds exactly when the requested
range lies inside the data file. -/
def readEntry (st : TableState) (entry : indexRecord) (bufLen : Nat) :
    Except GoError (List Nat) :=
  let n := if (bufLen : Int) > entry.size then entry.size.toNat else bufLen
  if 0 ≤ entry.offset ∧ entry.offset.toNat + n ≤ st.dataFile.length then
    .ok ((st.dataFile.drop entry.offset.toNat).take n)
  else .error .ioErr

/-- read from table.go (the source returns the zero-valued ErrKeyNotFound
there, carrying the all-zero key). -/
def table.read (st : TableState) (key : Key) (bufLen : Nat) :
    Except GoError (List Nat) :=
  match lookupAssoc st.index key with
  | none => .error (.keyNotFound (List.replicate KeySize 0))
  | some entry => readEntry st entry bufLen

/-- get from table.go: allocates a buffer of exactly the entry size, reads it
fully, and treats a short read as an integrity error. -/
def table.get (st : TableState) (key : Key) : Except GoError (List Nat) :=
  match lookupAssoc st.index key with
  | none => .error (.keyNotFound key)
  | some entry =>
    match readEntry st entry entry.size.toNat with
    | .error _ => .error .ioErr
    | .ok data =>
      if data.length ≠ entry.size.toNat then .error .shortRead else .ok data

/-- exists from table.go: in-memory presence check only. -/
def table.existsKey (st : TableState) (key : Key) : Bool :=
  (lookupAssoc st.index key).isSome

/-- count from table.go: the size of the in-memory index map. -/
def table.count (st : TableState) : Nat := st.index.length

/-- The steps of table.put that touch the file system and may fail. -/
inductive PutStep where
  | seekData
  | seekIndex
  | writeData
  | writeSep
  | syncData
  | writeIndex
  | syncIndex
  deriving DecidableEq

/-- The trailer put appends after the payload: the table's sepBuffer, which
newTable builds as 104 line-feed bytes overwritten at the front with the
64-byte separator, and whose middle 32 bytes put overwrites with the
hex-encoded key, leaving the final 8 padding bytes as line feeds. -/
def sepBufferFor (sep : List Nat) (key : Key) : List Nat :=
  sep ++ hexEncode key ++ List.replicate 8 lfChar

/-- put from table.go with fault injection: failAt names the file-system step
that fails (its operation returns an error), none meaning every step
succeeds. The order mirrors the source: seek both files to find the new
offsets, append the payload then the trailer to the data log, fsync the data
log, update the in-memory index entry for the key, append the encoded index
record to the index log, fsync the index log. -/
def table.put (st : TableState) (key : Key) (data : List Nat)
    (failAt : Option PutStep) : TableState × Option GoError :=
  if failAt = some .seekData then (st, some .ioErr) else
  let offset : Int := st.dataFile.length
  if failAt = some .seekIndex then (st, some .ioErr) else
  let indexOffset : Int := st.indexFile.length
  if failAt = some .writeData then (st, some .ioErr) else
  let st1 := { st with dataFile := st.dataFile ++ data }
  if failAt = some .writeSep then (st1, some .ioErr) else
  let st2 := { st1 with dataFile := st1.dataFile ++ sepBufferFor st.sep key }
  if failAt = some .syncData then (st2, some .ioErr) else
  let sz : Int := data.length
  let entry : indexRecord :=
    match lookupAssoc st2.index key with
    | none =>
      { dataFile := 0, offset := offset, size := sz, key := key,
        prevIndexOffset := maxInt64, indexOffset := indexOffset }
    | some old =>
      { old with offset := offset, size := sz, prevIndexOffset := old.indexOffset, indexOffset := indexOffset }
  let st3 := { st2 with index := setAssoc st2.index key entry }
  if failAt = some .writeIndex then (st3, some .ioErr) else
  let st4 := { st3 with indexFile := st3.indexFile ++ writeEntry entry }
  if failAt = some .syncIndex then (st4, some .ioErr) else
  (st4, none)

/-- close from table.go: closes both files; returns the data-file close error
if there was one, else the index-file close error. The booleans say which of
the two underlying file closes fail. -/
def table.close (dataCloseFails indexCloseFails : Bool) : Option GoError :=
  if dataCloseFails then some .ioErr
  else if indexCloseFails then some .ioErr
  else none

/-- Database state for the lifecycle claims: whether Close already ran and,
per owned table, which of its file closes would fail. -/
structure DBState where
  closed : Bool
  tables : List (TableKey × (Bool × Bool))
  deriving DecidableEq

/-- DB.Close from the database file. The loop body keeps firstErr exactly as
the source writes it: err := tab.close(); if firstErr != nil { firstErr =
err }. -/
def DB.Close (db : DBState) : DBState × Option GoError :=
  if db.closed then (db, some .alreadyClosed)
  else
    let db1 := { db with closed := true }
    let firstErr := db.tables.foldl
      (fun firstErr t =>
        let err := table.close t.2.1 t.2.2
        if firstErr ≠ none then err else firstErr)
      none
    (db1, firstErr)

/-- The index-rebuild loop of newTable (table.go). It reads chunks of
indexRecordSize bytes; a short tail stops the scan (the io.ReadFull error
breaks the loop) and a chunk that fails to decode aborts the open. The
source declares var n int for the io.ReadFull byte count but discards the
count (the assignment reads underscore comma err), so n stays 0 and the
running offset advances by int64(n) = 0 after every record; the model keeps
that behaviour. -/
def scanIndexGo : Nat → List Nat → List (Key × indexRecord) → Int →
    Option (List (Key × indexRecord))
  | 0, _, index, _ => some index
  | fuel + 1, bytes, index, indexOffset =>
    if bytes.length < indexRecordSize then some index
    else
      let n : Int := 0
      match decodeFresh (bytes.take indexRecordSize) with
      | none => none
      | some entry =>
        scanIndexGo fuel (bytes.drop indexRecordSize)
          (setAssoc index entry.key { entry with indexOffset := indexOffset })
          (indexOffset + n)

/-- The scan entry point: the fuel bounds the number of loop iterations and
never runs out, since every iteration consumes indexRecordSize = 93 bytes of
the remaining input. -/
def scanIndex (bytes : List Nat) (index : List (Key × indexRecord))
    (indexOffset : Int) : Option (List (Key × indexRecord)) :=
  scanIndexGo (bytes.length + 1) bytes index indexOffset

/-- newTable from table.go, reduced to its state assembly: rebuild the
in-memory index from the index log bytes by the sequential scan; the file
contents themselves are kept as given. -/
def newTable (dataNats indexNats : List Nat) (sep : List Nat) :
    Option TableState :=
  (scanIndex indexNats [] 0).map fun idx =>
    { dataFile := dataNats, indexFile := indexNats, index := idx, sep := sep }

/-- TxTable.Read from the transaction file. The source forwards directly to
table.read without consulting the transaction's done flag, unlike its
siblings Get, Put and Count; the done parameter is kept for signature parity
and is (faithfully) unused. -/
def TxTable.Read (done : Bool) (st : TableState) (key : Key) (bufLen : Nat) :
    Except GoError (List Nat) :=
  table.read st key bufLen

/-- TxTable.Get: rejects an ended transaction, then reads via table.get. -/
def TxTable.Get (done : Bool) (st : TableState) (key : Key) :
    Except GoError (List Nat) :=
  if done then .error .txDone else table.get st key

/-- TxTable.Put: rejects an ended transaction, then a non-writable binding,
then writes via table.put. -/
def TxTable.Put (done writable : Bool) (tabKey : TableKey) (st : TableState)
    (key : Key) (data : List Nat) (failAt : Option PutStep) :
    TableState × Option GoError :=
  if done then (st, some .txDone)
  else if !writable then (st, some (.tableNotWritableInTx tabKey))
  else table.put st key data failAt

/-- TxTable.Count: rejects an ended transaction, then counts. -/
def TxTable.Count (done : Bool) (st : TableState) : Except GoError Nat :=
  if done then .error .txDone else .ok (table.count st)

/-- A transaction as the fluent API sees it: the done flag, the sticky first
recorded error, and the bound tables (name, writable flag, table state).
Embedding the table states makes side effects on the tables visible to the
theorems. -/
structure TxM where
  done : Bool
  err : Option GoError
  tables : List (TableKey × Bool × TableState)

/-- Lookup of a bound table in a transaction config (cfg.tables[key]). -/
def lookupTxTable : List (TableKey × Bool × TableState) → TableKey →
    Option (Bool × TableState)
  | [], _ => none
  | (k', w, st) :: rest, k =>
    if k' = k then some (w, st) else lookupTxTable rest k

/-- Replacement of a bound table's state after a write through it. -/
def setTxTable : List (TableKey × Bool × TableState) → TableKey → TableState →
    List (TableKey × Bool × TableState)
  | [], _, _ => []
  | (k', w, st') :: rest, k, st =>
    if k' = k then (k', w, st) :: rest else (k', w, st') :: setTxTable rest k st

/-- Tx.Err: the first error recorded by the transaction. -/
def Tx.Err (tx : TxM) : Option GoError := tx.err

/-- Tx.Exists from the fluent API: false when the transaction is done or has
already errored; otherwise records table-not-in-tx on a bad table name, else
performs the in-memory existence check. -/
def Tx.Exists (tx : TxM) (tab : TableKey) (key : Key) : TxM × Bool :=
  if tx.done || tx.err.isSome then (tx, false)
  else
    match lookupTxTable tx.tables tab with
    | none => ({ tx with err := some (.tableNotInTx tab) }, false)
    | some (_, st) => (tx, table.existsKey st key)

/-- Tx.Read from the fluent API. The caller's slice pointer is modelled as an
Option (none being a nil pointer); the returned Option is the slice after
the call, untouched in every non-success branch. -/
def Tx.Read (tx : TxM) (tab : TableKey) (key : Key) (value : Option (List Nat)) :
    TxM × Option (List Nat) :=
  if tx.done || tx.err.isSome then (tx, value)
  else
    match lookupTxTable tx.tables tab with
    | none => ({ tx with err := some (.tableNotInTx tab) }, value)
    | some (_, st) =>
      match value with
      | none => ({ tx with err := some .nilSliceErr }, value)
      | some buf =>
        match table.read st key buf.length with
        | .error e => ({ tx with err := some e }, value)
        | .ok bytes => (tx, some bytes)

/-- Tx.Get from the fluent API: nil result when the transaction is done or
errored, when the table is not bound (recording the error), or when the read
fails (recording the error). -/
def Tx.Get (tx : TxM) (tab : TableKey) (key : Key) : TxM × Option (List Nat) :=
  if tx.done || tx.err.isSome then (tx, none)
  else
    match lookupTxTable tx.tables tab with
    | none => ({ tx with err := some (.tableNotInTx tab) }, none)
    | some (_, st) =>
      match table.get st key with
      | .error e => ({ tx with err := some e }, none)
      | .ok v => (tx, some v)

/-- Tx.Put from the fluent API: a no-op on a done or errored transaction;
otherwise records table-not-in-tx or table-not-writable, else performs the
real table.put, updating the bound table and recording the put's error (a
successful put records nothing since setErr is only reached on failure). -/
def Tx.Put (tx : TxM) (tab : TableKey) (key : Key) (value : List Nat)
    (failAt : Option PutStep) : TxM :=
  if tx.done || tx.err.isSome then tx
  else
    match lookupTxTable tx.tables tab with
    | none => { tx with err := some (.tableNotInTx tab) }
    | some (w, st) =>
      if !w then { tx with err := some (.tableNotWritableInTx tab) }
      else
        let r := table.put st key value failAt
        { tx with tables := setTxTable tx.tables tab r.1, err := r.2 }

/-- One participant record of a transaction config's lock order. -/
structure txTableCfg where
  key : TableKey
  writable : Bool
  deriving DecidableEq

/-- The table-collection loop of PrepareTx: the read set is walked first
(writable = false), then the write set (writable = true); a key already
collected errors out, as does a key missing from the database registry. -/
def collectTxTables (dbTables : List TableKey) :
    List txTableCfg → List txTableCfg → Option (List txTableCfg)
  | acc, [] => some acc
  | acc, tc :: rest =>
    if tc.key ∈ acc.map txTableCfg.key then none
    else if tc.key ∈ dbTables then collectTxTables dbTables (acc ++ [tc]) rest
    else none

/-- PrepareTx from the transaction file: collect one participant per named
table (read tables first, then write tables), then sort the lock order by
table key. The source sorts with sort.Slice and less(i, j) = key i < key j;
the collected keys are pairwise distinct, so every sorting algorithm agreeing
with that order yields the same list, here insertion sort under the
corresponding total order. -/
def PrepareTx (dbTables : List TableKey) (readTables writeTables : List TableKey) :
    Option (List txTableCfg) :=
  (collectTxTables dbTables []
      (readTables.map (fun k => ⟨k, false⟩) ++
       writeTables.map (fun k => ⟨k, true⟩))).map
    (List.insertionSort (fun a b => goStrLess b.key a.key = false))

/-- The non-strict relation that the sort in PrepareTx establishes between
adjacent lock participants: the later entry is not goStrLess-below the
earlier one. Unfolds to the relation PrepareTx sorts by. -/
def cfgLe (a b : txTableCfg) : Prop := goStrLess b.key a.key = false

instance : DecidableRel cfgLe := fun a b => by unfold cfgLe; infer_instance

/-- Index of the first occurrence of a key in a list of keys. -/
def keyIdx : List TableKey → TableKey → Nat
  | [], _ => 0
  | x :: xs, k => if x = k then 0 else keyIdx xs k + 1

/-- Position of a table key inside a lock order. -/
def lockPos (l : List txTableCfg) (k : TableKey) : Nat :=
  keyIdx (l.map txTableCfg.key) k

/-- The Is methods of the error types (errors.go): ErrTableNotInTx.Is and
ErrKeyNotFound.Is both report whether the target's dynamic type is
ErrKeyNotFound, ignoring the carried value; no other error type of the
package declares an Is method. -/
def errIsMethod (err target : GoError) : Bool :=
  match err, target with
  | .tableNotInTx _, .keyNotFound _ => true
  | .keyNotFound _, .keyNotFound _ => true
  | _, _ => false

/-- Go errors.Is restricted to this package's error values: first the
comparable equality test err == target, then the err.Is(target) method; none
of these error types wraps another, so the unwrap loop stops after one
round. -/
def errorsIs (err target : GoError) : Bool :=
  if err = target then true else errIsMethod err target

/-- Field ranges under which an index record is well-formed: the uint32 data
file number, int64 offsets and size, and a key of KeySize valid bytes. -/
def validRecord (r : indexRecord) : Prop :=
  r.dataFile < 2^32 ∧
  -2^63 ≤ r.offset ∧ r.offset < 2^63 ∧
  -2^63 ≤ r.size ∧ r.size < 2^63 ∧
  -2^63 ≤ r.prevIndexOffset ∧ r.prevIndexOffset < 2^63 ∧
  r.key.length = KeySize ∧ ∀ b ∈ r.key, b < 256

instance (r : indexRecord) : Decidable (validRecord r) := by
  unfold validRecord; infer_instance

/-- Modelled from the spec's words, for comparison with the source encoder:
the claimed record layout data_offset(16 hex) SP data_size(16 hex) SP
key(32 hex) SP prev_index_offset(16 hex) LF, with no other fields. -/
def specLayoutEncode (r : indexRecord) : List Nat :=
  hexEncode (u64BE (i64ToU64 r.offset)) ++ [spaceChar] ++
  hexEncode (u64BE (i64ToU64 r.size)) ++ [spaceChar] ++
  hexEncode r.key ++ [spaceChar] ++
  hexEncode (u64BE (i64ToU64 r.prevIndexOffset)) ++ [lfChar]

/-- The all-zero key. -/
def keyZero : Key := List.replicate KeySize 0

/-- A second key, distinct from keyZero. -/
def keyOne : Key := 1 :: List.replicate (KeySize - 1) 0

/-- A concrete fresh table state (empty logs, empty index, zero separator). -/
def sampleTable : TableState :=
  { dataFile := [], indexFile := [], index := [], sep := List.replicate 64 0 }

/-- A concrete record as a first write of keyZero would produce it. -/
def recA : indexRecord :=
  { dataFile := 0, offset := 0, size := 1, key := keyZero,
    prevIndexOffset := maxInt64, indexOffset := 0 }

/-- A concrete record as a first write of keyOne would produce it. -/
def recB : indexRecord :=
  { dataFile := 0, offset := 5, size := 2, key := keyOne,
    prevIndexOffset := maxInt64, indexOffset := 0 }

/-- A table state holding one entry for keyZero whose single data byte is
readable. -/
def sampleTableWithKey : TableState :=
  { dataFile := [42] ++ sepBufferFor (List.replicate 64 0) keyZero,
    indexFile := writeEntry recA,
    index := [(keyZero, recA)],
    sep := List.replicate 64 0 }

/-- A live transaction bound to one writable table (named by the byte 97)
holding sampleTableWithKey. -/
def txLive : TxM :=
  { done := false, err := none, tables := [([97], true, sampleTableWithKey)] }

/-- The same transaction with an error already recorded. -/
def txErrored : TxM :=
  { done := false, err := some .ioErr, tables := [([97], true, sampleTableWithKey)] }

/-- A database whose single owned table fails to close its data file. -/
def sampleDBFailingClose : DBState :=
  { closed := false, tables := [([97], (true, false))] }

/-- Steps of put that precede the in-memory index update (everything up to
and including the data-log fsync). -/
def stepEarly : PutStep → Bool
  | .writeIndex => false
  | .syncIndex => false
  | _ => true

/-- A record whose in-memory index offset is nonzero, for the round-trip
counterexample. -/
def recIdx1 : indexRecord :=
  { dataFile := 0, offset := 0, size := 1, key := keyZero,
    prevIndexOffset := 0, indexOffset := 1 }

deriving instance DecidableEq for Except


/-! Generic lemmas about the codec building blocks. -/

theorem length_hexEncode (bs : List Nat) : (hexEncode bs).length = 2 * bs.length := by
  induction bs with
  | nil => rfl
  | cons b rest ih =>
    simp only [hexEncode, List.map_cons, List.flatten_cons, List.length_append,
      List.length_cons, List.length_nil, hexNat] at ih ⊢
    omega

theorem fromHexChar_hexDigit {n : Nat} (h : n < 16) :
    fromHexChar (hexDigit n) = some n := by
  interval_cases n <;> decide

theorem hexDecode_hexEncode {bs : List Nat} (h : ∀ b ∈ bs, b < 256) :
    hexDecode (hexEncode bs) = some bs := by
  induction bs with
  | nil => rfl
  | cons b rest ih =>
    have hb : b < 256 := h b (by simp)
    have h1 : b / 16 < 16 := by omega
    have h2 : b % 16 < 16 := by omega
    have ihr : hexDecode (hexEncode rest) = some rest :=
      ih (fun x hx => h x (List.mem_cons_of_mem _ hx))
    show hexDecode (hexDigit (b / 16) :: hexDigit (b % 16) :: hexEncode rest) = _
    rw [hexDecode, fromHexChar_hexDigit h1, fromHexChar_hexDigit h2, ihr]
    have hb16 : b / 16 * 16 + b % 16 = b := by omega
    simp [hb16]

theorem u64BE_lt (n : Nat) : ∀ b ∈ u64BE n, b < 256 := by
  intro b hb
  simp only [u64BE, List.mem_cons, List.not_mem_nil, or_false] at hb
  rcases hb with h | h | h | h | h | h | h | h <;> subst h <;> omega

theorem u32BE_lt (n : Nat) : ∀ b ∈ u32BE n, b < 256 := by
  intro b hb
  simp only [u32BE, List.mem_cons, List.not_mem_nil, or_false] at hb
  rcases hb with h | h | h | h <;> subst h <;> omega

theorem beToNat_u64BE {n : Nat} (h : n < 2^64) : beToNat (u64BE n) = n := by
  simp only [beToNat, u64BE, List.foldl]
  omega

theorem beToNat_u32BE {n : Nat} (h : n < 2^32) : beToNat (u32BE n) = n := by
  simp only [beToNat, u32BE, List.foldl]
  omega

theorem i64ToU64_lt (x : Int) : i64ToU64 x < 2^64 := by
  unfold i64ToU64
  omega

theorem u64ToI64_i64ToU64 {x : Int} (h1 : -2^63 ≤ x) (h2 : x < 2^63) :
    u64ToI64 (i64ToU64 x) = x := by
  unfold u64ToI64 i64ToU64
  omega

theorem length_writeEntry {r : indexRecord} (hk : r.key.length = KeySize) :
    (writeEntry r).length = indexRecordSize := by
  simp [writeEntry, length_hexEncode, u64BE, u32BE, hk, indexRecordSize, KeySize]

theorem decode_concat (f1 f2 f3 f4 f5 : List Nat) (ir : indexRecord)
    (h1 : f1.length = 8) (h2 : f2.length = 16) (h3 : f3.length = 16)
    (h4 : f4.length = 32) (h5 : f5.length = 16) :
    decode (f1 ++ [spaceChar] ++ f2 ++ [spaceChar] ++ f3 ++ [spaceChar] ++
      f4 ++ [spaceChar] ++ f5 ++ [lfChar]) ir =
    match hexDecode f1, hexDecode f2, hexDecode f3, hexDecode f4, hexDecode f5 with
    | some df, some off, some sz, some k, some prev =>
      some { ir with
        dataFile := beToNat df
        offset := u64ToI64 (beToNat off)
        size := u64ToI64 (beToNat sz)
        key := k
        prevIndexOffset := u64ToI64 (beToNat prev) }
    | _, _, _, _, _ => none := by
  set B := f1 ++ [spaceChar] ++ f2 ++ [spaceChar] ++ f3 ++ [spaceChar] ++
      f4 ++ [spaceChar] ++ f5 ++ [lfChar] with hB
  have hlen : B.length = indexRecordSize := by
    simp [hB, indexRecordSize, KeySize]
    omega
  have t1 : B.take 8 = f1 := by
    have e : B = f1 ++ ([spaceChar] ++ f2 ++ [spaceChar] ++ f3 ++ [spaceChar] ++
        f4 ++ [spaceChar] ++ f5 ++ [lfChar]) := by simp [hB]
    rw [e, List.take_left' h1]
  have d9 : B.drop 9 = f2 ++ [spaceChar] ++ f3 ++ [spaceChar] ++
      f4 ++ [spaceChar] ++ f5 ++ [lfChar] := by
    have e : B = (f1 ++ [spaceChar]) ++ (f2 ++ [spaceChar] ++ f3 ++ [spaceChar] ++
        f4 ++ [spaceChar] ++ f5 ++ [lfChar]) := by simp [hB]
    rw [e, List.drop_left' (by simp [h1])]
  have t2 : (B.drop 9).take 16 = f2 := by
    rw [d9]
    have e : f2 ++ [spaceChar] ++ f3 ++ [spaceChar] ++ f4 ++ [spaceChar] ++
        f5 ++ [lfChar] = f2 ++ ([spaceChar] ++ f3 ++ [spaceChar] ++ f4 ++
        [spaceChar] ++ f5 ++ [lfChar]) := by simp
    rw [e, List.take_left' h2]
  have d26 : B.drop 26 = f3 ++ [spaceChar] ++ f4 ++ [spaceChar] ++ f5 ++ [lfChar] := by
    have e : B = (f1 ++ [spaceChar] ++ f2 ++ [spaceChar]) ++
        (f3 ++ [spaceChar] ++ f4 ++ [spaceChar] ++ f5 ++ [lfChar]) := by simp [hB]
    rw [e, List.drop_left' (by simp [h1, h2])]
  have t3 : (B.drop 26).take 16 = f3 := by
    rw [d26]
    have e : f3 ++ [spaceChar] ++ f4 ++ [spaceChar] ++ f5 ++ [lfChar] =
        f3 ++ ([spaceChar] ++ f4 ++ [spaceChar] ++ f5 ++ [lfChar]) := by simp
    rw [e, List.take_left' h3]
  have d43 : B.drop 43 = f4 ++ [spaceChar] ++ f5 ++ [lfChar] := by
    have e : B = (f1 ++ [spaceChar] ++ f2 ++ [spaceChar] ++ f3 ++ [spaceChar]) ++
        (f4 ++ [spaceChar] ++ f5 ++ [lfChar]) := by simp [hB]
    rw [e, List.drop_left' (by simp [h1, h2, h3])]
  have t4 : (B.drop 43).take 32 = f4 := by
    rw [d43]
    have e : f4 ++ [spaceChar] ++ f5 ++ [lfChar] =
        f4 ++ ([spaceChar] ++ f5 ++ [lfChar]) := by simp
    rw [e, List.take_left' h4]
  have d76 : B.drop 76 = f5 ++ [lfChar] := by
    have e : B = (f1 ++ [spaceChar] ++ f2 ++ [spaceChar] ++ f3 ++ [spaceChar] ++
        f4 ++ [spaceChar]) ++ (f5 ++ [lfChar]) := by simp [hB]
    rw [e, List.drop_left' (by simp [h1, h2, h3, h4])]
  have t5 : (B.drop 76).take 16 = f5 := by
    rw [d76, List.take_left' h5]
  unfold decode
  rw [if_pos hlen, t1, t2, t3, t4, t5]

theorem decode_writeEntry {r : indexRecord} (ir : indexRecord)
    (hv : validRecord r) :
    decode (writeEntry r) ir = some { r with indexOffset := ir.indexOffset } := by
  obtain ⟨hdf, ho1, ho2, hs1, hs2, hp1, hp2, hk, hkb⟩ := hv
  have e := decode_concat (hexEncode (u32BE r.dataFile))
    (hexEncode (u64BE (i64ToU64 r.offset)))
    (hexEncode (u64BE (i64ToU64 r.size)))
    (hexEncode r.key)
    (hexEncode (u64BE (i64ToU64 r.prevIndexOffset))) ir
    (by simp [length_hexEncode, u32BE])
    (by simp [length_hexEncode, u64BE])
    (by simp [length_hexEncode, u64BE])
    (by simp [length_hexEncode, hk, KeySize])
    (by simp [length_hexEncode, u64BE])
  rw [writeEntry, e,
    hexDecode_hexEncode (u32BE_lt _),
    hexDecode_hexEncode (u64BE_lt _),
    hexDecode_hexEncode (u64BE_lt _),
    hexDecode_hexEncode hkb,
    hexDecode_hexEncode (u64BE_lt _)]
  simp only [beToNat_u32BE hdf, beToNat_u64BE (i64ToU64_lt _),
    u64ToI64_i64ToU64 ho1 ho2, u64ToI64_i64ToU64 hs1 hs2,
    u64ToI64_i64ToU64 hp1 hp2]

/-! Theorems settling the specification claims. -/

/-- Claim C7 counterexample: decoding the encoding of a record whose
in-memory index offset is 1 into a fresh record does not restore the record,
since the index offset is not part of the on-disk encoding. -/
theorem C7_roundtrip_counterexample :
    decodeFresh (writeEntry recIdx1) ≠ some recIdx1 := by decide

/-- Claim C7, amended: decoding the encoding of a well-formed record restores
every stored field (data file, offset, size, key, previous index offset);
the in-memory-only index offset is left at whatever the receiving record
held, so the round trip is the identity exactly on that field's value in the
receiver. -/
theorem C7_roundtrip_amended (r ir : indexRecord) (hv : validRecord r) :
    decode (writeEntry r) ir = some { r with indexOffset := ir.indexOffset } :=
  decode_writeEntry ir hv

/-- Witness for C7_roundtrip_amended at a concrete record. -/
theorem C7_roundtrip_witness :
    validRecord recA ∧
    decode (writeEntry recA) zeroRecord =
      some { recA with indexOffset := zeroRecord.indexOffset } :=
  ⟨by decide, C7_roundtrip_amended recA zeroRecord (by decide)⟩

/-- Claim C8 counterexample: the encoder's output is not the four-field
layout the claim describes; the encoded record is 93 bytes, not the 84 the
claimed layout yields, because of the leading data-file field. -/
theorem C8_layout_counterexample :
    (writeEntry recA).length = 93 ∧ (specLayoutEncode recA).length = 84 ∧
    writeEntry recA ≠ specLayoutEncode recA := by decide

/-- Claim C8, amended: every encoded index record consists of exactly
data_file (8 hex chars), space, data_offset (16 hex chars), space, data_size
(16 hex chars), space, key (32 hex chars), space, prev_index_offset (16 hex
chars), line feed, in that order; and decode accepts a buffer only at
exactly the fixed width indexRecordSize. -/
theorem C8_layout_amended (r : indexRecord) (hv : validRecord r) :
    (∃ f1 f2 f3 f4 f5 : List Nat,
      f1.length = 8 ∧ f2.length = 16 ∧ f3.length = 16 ∧ f4.length = 32 ∧
      f5.length = 16 ∧
      hexDecode f1 = some (u32BE r.dataFile) ∧
      hexDecode f2 = some (u64BE (i64ToU64 r.offset)) ∧
      hexDecode f3 = some (u64BE (i64ToU64 r.size)) ∧
      hexDecode f4 = some r.key ∧
      hexDecode f5 = some (u64BE (i64ToU64 r.prevIndexOffset)) ∧
      writeEntry r = f1 ++ [spaceChar] ++ f2 ++ [spaceChar] ++ f3 ++
        [spaceChar] ++ f4 ++ [spaceChar] ++ f5 ++ [lfChar]) ∧
    ∀ (b : List Nat) (ir : indexRecord),
      b.length ≠ indexRecordSize → decode b ir = none := by
  obtain ⟨hdf, ho1, ho2, hs1, hs2, hp1, hp2, hk, hkb⟩ := hv
  constructor
  · refine ⟨hexEncode (u32BE r.dataFile), hexEncode (u64BE (i64ToU64 r.offset)),
      hexEncode (u64BE (i64ToU64 r.size)), hexEncode r.key,
      hexEncode (u64BE (i64ToU64 r.prevIndexOffset)), ?_, ?_, ?_, ?_, ?_,
      ?_, ?_, ?_, ?_, ?_, ?_⟩
    · simp [length_hexEncode, u32BE]
    · simp [length_hexEncode, u64BE]
    · simp [length_hexEncode, u64BE]
    · simp [length_hexEncode, hk, KeySize]
    · simp [length_hexEncode, u64BE]
    · exact hexDecode_hexEncode (u32BE_lt _)
    · exact hexDecode_hexEncode (u64BE_lt _)
    · exact hexDecode_hexEncode (u64BE_lt _)
    · exact hexDecode_hexEncode hkb
    · exact hexDecode_hexEncode (u64BE_lt _)
    · rfl
  · intro b ir hb
    unfold decode
    rw [if_neg hb]

/-- Witness for C8_layout_amended at a concrete record. -/
theorem C8_layout_witness :
    validRecord recA ∧
    ∀ (b : List Nat) (ir : indexRecord),
      b.length ≠ indexRecordSize → decode b ir = none :=
  ⟨by decide, (C8_layout_amended recA (by decide)).2⟩

/-- Claim C1 counterexample: a put that fails at the index-log append has
already published the new in-memory index entry: on a fresh table the put
errors, yet the key that was absent before now resolves in the index. -/
theorem C1_publish_counterexample :
    (table.put sampleTable keyZero [1] (some .writeIndex)).2.isSome = true ∧
    lookupAssoc sampleTable.index keyZero = none ∧
    lookupAssoc (table.put sampleTable keyZero [1] (some .writeIndex)).1.index
      keyZero ≠ none := by decide

/-- Claim C1, amended: the in-memory index is updated after the data-log
write and fsync succeed but before the index-log append, so a put failing at
or before the data fsync leaves the index unchanged, while a put failing at
the index-log append or fsync leaves the index already holding exactly the
state a successful put would have produced. -/
theorem C1_publish_amended (st : TableState) (k : Key) (d : List Nat)
    (s : PutStep) :
    (table.put st k d (some s)).2.isSome = true ∧
    (stepEarly s = true → (table.put st k d (some s)).1.index = st.index) ∧
    (stepEarly s = false →
      (table.put st k d (some s)).1.index = (table.put st k d none).1.index) := by
  cases s <;> simp [table.put, stepEarly]

/-- Witness for C1_publish_amended at concrete inputs, one early and one
late failing step. -/
theorem C1_publish_witness :
    (table.put sampleTable keyZero [1] (some .syncData)).1.index =
      sampleTable.index ∧
    (table.put sampleTable keyZero [1] (some .syncIndex)).1.index =
      (table.put sampleTable keyZero [1] none).1.index :=
  ⟨(C1_publish_amended sampleTable keyZero [1] .syncData).2.1 (by decide),
   (C1_publish_amended sampleTable keyZero [1] .syncIndex).2.2 (by decide)⟩

/-- Claim C9 counterexample: a successful put appends more than payload,
separator and hex key: the 8 line-feed padding bytes of the sepBuffer go to
the data log too. -/
theorem C9_trailer_counterexample :
    (table.put sampleTable keyZero [1] none).2 = none ∧
    (table.put sampleTable keyZero [1] none).1.dataFile ≠
      sampleTable.dataFile ++ [1] ++ sampleTable.sep ++ hexEncode keyZero := by
  decide

/-- Claim C9, amended: a successful put appends to the data log exactly the
payload, the 64-byte separator, the hex-encoded key and 8 line-feed padding
bytes, in that order. -/
theorem C9_trailer_amended (st : TableState) (k : Key) (d : List Nat) :
    (table.put st k d none).2 = none ∧
    (table.put st k d none).1.dataFile =
      st.dataFile ++ d ++ st.sep ++ hexEncode k ++ List.replicate 8 lfChar := by
  simp [table.put, sepBufferFor, List.append_assoc]

set_option maxRecDepth 8000 in
/-- Claim C3 is a code bug: rebuilding the index from a log of two complete
well-formed records assigns in-memory index offset 0 to both records, because
the source discards the io.ReadFull byte count it declared for tracking the
running offset; the claim (and the spec) expect the second record to carry
offset 1 * indexRecordSize = 93. -/
theorem C3_scan_offsets_bug :
    scanIndex (writeEntry recA ++ writeEntry recB) [] 0 =
      some [(keyZero, { recA with indexOffset := 0 }),
            (keyOne, { recB with indexOffset := 0 })] ∧
    (scanIndex (writeEntry recA ++ writeEntry recB) [] 0).bind
        (fun idx => (lookupAssoc idx keyOne).map indexRecord.indexOffset) ≠
      some ((1 : Int) * (indexRecordSize : Int)) := by decide

set_option maxRecDepth 8000 in
/-- Claim C4 is a code bug: on an already-ended transaction, the bound
handle's Get, Put and Count reject with the transaction-done error, but Read
omits the check and performs the table access, returning the read data. -/
theorem C4_read_missing_done_check :
    TxTable.Read true sampleTableWithKey keyZero 1 = .ok [42] ∧
    TxTable.Read true sampleTableWithKey keyZero 1 ≠ .error .txDone ∧
    TxTable.Get true sampleTableWithKey keyZero = .error .txDone ∧
    TxTable.Put true true [97] sampleTableWithKey keyZero [1] none =
      (sampleTableWithKey, some .txDone) ∧
    TxTable.Count true sampleTableWithKey = .error .txDone := by decide

/-- Claim C6 is a code bug: the single owned table fails to close, yet
DB.Close reports success, because the source's first-error accumulator is
guarded by the inverted condition firstErr != nil and so never records any
error. -/
theorem C6_close_swallows_errors :
    table.close true false = some .ioErr ∧
    DB.Close sampleDBFailingClose =
      ({ sampleDBFailingClose with closed := true }, none) := by decide

/-- Claim C10: the table-not-bound error matches the key-not-found error
under Go error matching, since ErrTableNotInTx.Is reports true whenever the
target's dynamic type is ErrKeyNotFound. -/
theorem C10_tableNotInTx_matches_keyNotFound (t : TableKey) :
    errorsIs (.tableNotInTx t) (.keyNotFound keyZero) = true := by
  simp [errorsIs, errIsMethod]


theorem goStrLess_irrefl (s : TableKey) : goStrLess s s = false := by
  induction s with
  | nil => rfl
  | cons a s' ih => simp [goStrLess, ih]

theorem goStrLess_asymm {s t : TableKey} (h : goStrLess s t = true) :
    goStrLess t s = false := by
  induction s generalizing t with
  | nil =>
    cases t with
    | nil => simp [goStrLess] at h
    | cons b t' => rfl
  | cons a s' ih =>
    cases t with
    | nil => simp [goStrLess] at h
    | cons b t' =>
      simp only [goStrLess] at h ⊢
      split_ifs at h ⊢ <;> try rfl
      all_goals first
        | omega
        | exact Bool.noConfusion h
        | exact ih h

theorem goStrLess_conn {s t : TableKey} (h1 : goStrLess s t = false)
    (h2 : goStrLess t s = false) : s = t := by
  induction s generalizing t with
  | nil =>
    cases t with
    | nil => rfl
    | cons b t' => simp [goStrLess] at h1
  | cons a s' ih =>
    cases t with
    | nil => simp [goStrLess] at h2
    | cons b t' =>
      simp only [goStrLess] at h1 h2
      split_ifs at h1 h2 <;>
        first
          | exact Bool.noConfusion h1
          | exact Bool.noConfusion h2
          | (have hab : a = b := by omega
             subst hab
             rw [ih h1 h2])

theorem goStrLess_trans {s t u : TableKey} (h1 : goStrLess s t = true)
    (h2 : goStrLess t u = true) : goStrLess s u = true := by
  induction s generalizing t u with
  | nil =>
    cases t with
    | nil => simp [goStrLess] at h1
    | cons b t' =>
      cases u with
      | nil => simp [goStrLess] at h2
      | cons c u' => rfl
  | cons a s' ih =>
    cases t with
    | nil => simp [goStrLess] at h1
    | cons b t' =>
      cases u with
      | nil => simp [goStrLess] at h2
      | cons c u' =>
        simp only [goStrLess] at h1 h2 ⊢
        split_ifs at h1 h2 ⊢ <;> try rfl
        all_goals first
          | omega
          | exact Bool.noConfusion h1
          | exact Bool.noConfusion h2
          | (exact ih h1 h2)


theorem cfgLe_total (a b : txTableCfg) : cfgLe a b ∨ cfgLe b a := by
  unfold cfgLe
  by_cases h : goStrLess b.key a.key = false
  · exact Or.inl h
  · have ht : goStrLess b.key a.key = true := by
      cases hx : goStrLess b.key a.key
      · exact absurd hx h
      · rfl
    exact Or.inr (goStrLess_asymm ht)

theorem cfgLe_trans (a b c : txTableCfg) (hab : cfgLe a b) (hbc : cfgLe b c) :
    cfgLe a c := by
  unfold cfgLe at hab hbc ⊢
  cases hca : goStrLess c.key a.key
  · rfl
  · exfalso
    cases hbc2 : goStrLess b.key c.key
    · have hcb : goStrLess c.key b.key = false := hbc
      have hbkey : b.key = c.key := goStrLess_conn hbc2 hcb
      rw [hbkey] at hab
      rw [hab] at hca
      exact Bool.noConfusion hca
    · have h1 : goStrLess b.key a.key = true := goStrLess_trans hbc2 hca
      rw [hab] at h1
      exact Bool.noConfusion h1

theorem mem_collect_nodup (dbTables : List TableKey) :
    ∀ (ts : List txTableCfg) (acc l : List txTableCfg),
      collectTxTables dbTables acc ts = some l →
      (acc.map txTableCfg.key).Nodup → (l.map txTableCfg.key).Nodup := by
  intro ts
  induction ts with
  | nil =>
    intro acc l h hacc
    simp only [collectTxTables, Option.some.injEq] at h
    rw [← h]
    exact hacc
  | cons tc rest ih =>
    intro acc l h hacc
    simp only [collectTxTables] at h
    split_ifs at h with hdup hdb
    · exact ih (acc ++ [tc]) l h (by
        rw [List.map_append]
        simp only [List.map_cons, List.map_nil]
        rw [List.nodup_append]
        refine ⟨hacc, List.nodup_singleton _, ?_⟩
        intro x hx hx1
        simp only [List.mem_singleton] at hx1
        subst hx1
        exact hdup hx)

theorem prepared_keys_nodup {db r w : List TableKey} {l : List txTableCfg}
    (h : PrepareTx db r w = some l) : (l.map txTableCfg.key).Nodup := by
  unfold PrepareTx at h
  cases hc : collectTxTables db []
      (r.map (fun k => ⟨k, false⟩) ++ w.map (fun k => ⟨k, true⟩)) with
  | none => rw [hc] at h; simp at h
  | some l0 =>
    rw [hc] at h
    simp only [Option.map_some', Option.some.injEq] at h
    have h0 : (l0.map txTableCfg.key).Nodup :=
      mem_collect_nodup db _ [] l0 hc (by simp)
    have hperm : List.Perm (List.insertionSort cfgLe l0) l0 :=
      List.perm_insertionSort cfgLe l0
    have hpm : List.Perm ((List.insertionSort cfgLe l0).map txTableCfg.key)
        (l0.map txTableCfg.key) := hperm.map txTableCfg.key
    rw [← h]
    exact hpm.nodup_iff.mpr h0

theorem prepared_keys_pairwise {db r w : List TableKey} {l : List txTableCfg}
    (h : PrepareTx db r w = some l) :
    (l.map txTableCfg.key).Pairwise (fun A B => goStrLess A B = true) := by
  have hnd : (l.map txTableCfg.key).Nodup := prepared_keys_nodup h
  have hsorted : l.Pairwise cfgLe := by
    unfold PrepareTx at h
    cases hc : collectTxTables db []
        (r.map (fun k => ⟨k, false⟩) ++ w.map (fun k => ⟨k, true⟩)) with
    | none => rw [hc] at h; simp at h
    | some l0 =>
      rw [hc] at h
      simp only [Option.map_some', Option.some.injEq] at h
      rw [← h]
      haveI : IsTotal txTableCfg cfgLe := ⟨cfgLe_total⟩
      haveI : IsTrans txTableCfg cfgLe := ⟨cfgLe_trans⟩
      exact List.sorted_insertionSort cfgLe l0
  have hkeys : (l.map txTableCfg.key).Pairwise
      (fun A B => goStrLess B A = false) :=
    hsorted.map txTableCfg.key (fun a b hab => hab)
  have hcomb := List.Pairwise.and hnd hkeys
  refine hcomb.imp ?_
  intro A B hAB
  obtain ⟨hne, hle⟩ := hAB
  cases hx : goStrLess A B
  · exact absurd (goStrLess_conn hx hle) hne
  · rfl


theorem pairwise_keyIdx_lt_iff {L : List TableKey}
    (hp : L.Pairwise (fun A B => goStrLess A B = true))
    {A B : TableKey} (hA : A ∈ L) (hB : B ∈ L) :
    (keyIdx L A < keyIdx L B ↔ goStrLess A B = true) := by
  induction L with
  | nil => cases hA
  | cons x xs ih =>
    have hx : ∀ y ∈ xs, goStrLess x y = true := (List.pairwise_cons.mp hp).1
    have hp' := (List.pairwise_cons.mp hp).2
    by_cases hAx : x = A
    · by_cases hBx : x = B
      · subst hAx; subst hBx
        simp [keyIdx, goStrLess_irrefl]
      · have hBm : B ∈ xs := by
          rcases List.mem_cons.mp hB with h | h
          · exact absurd h.symm hBx
          · exact h
        subst hAx
        simp only [keyIdx, if_pos rfl, if_neg hBx]
        simp [hx B hBm]
    · by_cases hBx : x = B
      · have hAm : A ∈ xs := by
          rcases List.mem_cons.mp hA with h | h
          · exact absurd h.symm hAx
          · exact h
        subst hBx
        simp only [keyIdx, if_pos rfl, if_neg hAx]
        simp [goStrLess_asymm (hx A hAm)]
      · have hAm : A ∈ xs := by
          rcases List.mem_cons.mp hA with h | h
          · exact absurd h.symm hAx
          · exact h
        have hBm : B ∈ xs := by
          rcases List.mem_cons.mp hB with h | h
          · exact absurd h.symm hBx
          · exact h
        simp only [keyIdx, if_neg hAx, if_neg hBx, Nat.add_lt_add_iff_right]
        exact ih hp' hAm hBm

/-- Claim C2: any two successfully prepared transaction configs order any two
shared table names consistently: A precedes B in one config's lock order
exactly when it does in the other's, regardless of how each config split its
tables between the read and write sets or in what order they were supplied. -/
theorem C2_lock_order_consistent
    (db1 db2 r1 w1 r2 w2 : List TableKey) (l1 l2 : List txTableCfg)
    (A B : TableKey)
    (h1 : PrepareTx db1 r1 w1 = some l1) (h2 : PrepareTx db2 r2 w2 = some l2)
    (hA1 : A ∈ l1.map txTableCfg.key) (hB1 : B ∈ l1.map txTableCfg.key)
    (hA2 : A ∈ l2.map txTableCfg.key) (hB2 : B ∈ l2.map txTableCfg.key) :
    (lockPos l1 A < lockPos l1 B ↔ lockPos l2 A < lockPos l2 B) := by
  have p1 := pairwise_keyIdx_lt_iff (prepared_keys_pairwise h1) hA1 hB1
  have p2 := pairwise_keyIdx_lt_iff (prepared_keys_pairwise h2) hA2 hB2
  unfold lockPos
  exact p1.trans p2.symm

/-- Witness for C2_lock_order_consistent: two concrete configs over tables
"a" (byte 97) and "b" (byte 98), one naming them read-then-write in order,
the other all-read in reversed order. -/
theorem C2_lock_order_witness :
    PrepareTx [[97], [98]] [[97]] [[98]] =
      some [⟨[97], false⟩, ⟨[98], true⟩] ∧
    PrepareTx [[97], [98]] [[98], [97]] [] =
      some [⟨[97], false⟩, ⟨[98], false⟩] ∧
    (lockPos [⟨[97], false⟩, ⟨[98], true⟩] [97] <
        lockPos [⟨[97], false⟩, ⟨[98], true⟩] [98] ↔
      lockPos [⟨[97], false⟩, ⟨[98], false⟩] [97] <
        lockPos [⟨[97], false⟩, ⟨[98], false⟩] [98]) :=
  ⟨by decide, by decide,
   C2_lock_order_consistent [[97], [98]] [[97], [98]] [[97]] [[98]]
     [[98], [97]] [] _ _ [97] [98] (by decide) (by decide)
     (by decide) (by decide) (by decide) (by decide)⟩

/-- Claim C5: fluent-API error discipline. Once the transaction is done or an
error is recorded, every fluent operation is a complete no-op: the
transaction value (including every bound table's state) is returned
unchanged, Read hands back the caller's buffer untouched, Get yields no
value and Exists yields false. On a live transaction with no recorded error,
each operation performs the real table access on the bound table: Put
updates that table exactly as table.put does and records precisely the
error table.put returns (none on success), which Err then reports; Get and
Read record exactly the error of the underlying table access and Get
returns its value on success; Exists consults the table's in-memory index. -/
theorem C5_fluent_first_error (tx : TxM) (tab : TableKey) (k : Key)
    (v : List Nat) (buf : Option (List Nat)) (f : Option PutStep)
    (st : TableState) :
    (tx.done = true ∨ tx.err.isSome = true →
      Tx.Put tx tab k v f = tx ∧
      Tx.Read tx tab k buf = (tx, buf) ∧
      Tx.Get tx tab k = (tx, none) ∧
      Tx.Exists tx tab k = (tx, false)) ∧
    (tx.done = false → tx.err = none →
      lookupTxTable tx.tables tab = some (true, st) →
      Tx.Put tx tab k v f =
        { tx with tables := setTxTable tx.tables tab (table.put st k v f).1,
                  err := (table.put st k v f).2 } ∧
      Tx.Err (Tx.Put tx tab k v f) = (table.put st k v f).2 ∧
      (Tx.Get tx tab k).1.err =
        (match table.get st k with | .error e => some e | .ok _ => none) ∧
      (Tx.Get tx tab k).2 =
        (match table.get st k with | .error _ => none | .ok v0 => some v0) ∧
      (Tx.Read tx tab k (some v)).1.err =
        (match table.read st k v.length with
          | .error e => some e | .ok _ => none) ∧
      Tx.Exists tx tab k = (tx, table.existsKey st k)) := by
  constructor
  · intro h
    have hcond : (tx.done || tx.err.isSome) = true := by
      rcases h with h | h <;> simp [h]
    refine ⟨?_, ?_, ?_, ?_⟩ <;> simp [Tx.Put, Tx.Read, Tx.Get, Tx.Exists, hcond]
  · intro hd he hlook
    have hcond : (tx.done || tx.err.isSome) = false := by simp [hd, he]
    refine ⟨?_, ?_, ?_, ?_, ?_, ?_⟩
    · simp [Tx.Put, hcond, hlook]
    · cases hput : table.put st k v f with
      | mk st2 e2 => simp [Tx.Err, Tx.Put, hcond, hlook, hput]
    · cases hget : table.get st k <;> simp [Tx.Get, hcond, hlook, hget, hd, he]
    · cases hget : table.get st k <;> simp [Tx.Get, hcond, hlook, hget]
    · cases hread : table.read st k v.length <;>
        simp [Tx.Read, hcond, hlook, hread, hd, he]
    · simp [Tx.Exists, hcond, hlook]

/-- Witness for C5_fluent_first_error: the no-op part at a transaction with a
recorded error, and the real-access part at a live transaction bound to one
writable table. -/
theorem C5_fluent_witness :
    (Tx.Put txErrored [97] keyZero [1] none = txErrored ∧
     Tx.Read txErrored [97] keyZero (some [0]) = (txErrored, some [0]) ∧
     Tx.Get txErrored [97] keyZero = (txErrored, none) ∧
     Tx.Exists txErrored [97] keyZero = (txErrored, false)) ∧
    Tx.Exists txLive [97] keyZero = (txLive, table.existsKey sampleTableWithKey keyZero) :=
  ⟨(C5_fluent_first_error txErrored [97] keyZero [1] (some [0]) none
      sampleTableWithKey).1 (Or.inr (by decide)),
   ((C5_fluent_first_error txLive [97] keyZero [1] (some [0]) none
      sampleTableWithKey).2 (by decide) (by decide) (by decide)).2.2.2.2.2⟩

end SimpleWalDB
